import Mathlib

/-!
Verification of the bounded thread-safe FIFO queue `SafeQueue<T>` declared in
src/cpp/safe_queue.h. The header declares the class (members `m_theQueue :
std::queue<T>` and `m_maximumSize : std::size_t`, line 140 and 142) and its
public operations; the implementation file `safe_queue_impl.h` that the header
includes on line 159 is not part of the sources, so every operation body below
is modelled from the specification's description of that operation. The
`std::queue<T>` member is modelled as a `List` whose head is the queue's front
(append at the tail, remove from the head), and `std::size_t` sizes as `Nat`.
Locks and condition variables are concurrency machinery with no effect on the
single-threaded functional behaviour; a blocking call that would suspend
forever in a single-threaded run (Push on a full queue, Pop on an empty one)
is rendered as `none`.
-/

/-- The state of one `SafeQueue<T>` instance (src/cpp/safe_queue.h, lines
138-146): `m_theQueue` is the guarded `std::queue<T>` with its front at the
list head, `m_maximumSize` the capacity bound. The mutex and condition
variable have no functional state and are not represented. -/
structure SafeQueue (T : Type) where
  m_theQueue : List T
  m_maximumSize : Nat
deriving DecidableEq

/-- Modelled from the spec: the constructor (`SafeQueue(std::size_t a_maxSize)`,
header line 63; body in the missing safe_queue_impl.h) creates an empty queue
with the given capacity bound. -/
def SafeQueue.new (T : Type) (a_maxSize : Nat) : SafeQueue T :=
  { m_theQueue := [], m_maximumSize := a_maxSize }

/-- The default capacity `SAFE_QUEUE_DEFAULT_MAX_SIZE =
std::numeric_limits<std::size_t>::max()` (header line 52), i.e. 2^64 - 1 on a
64-bit platform. -/
def SAFE_QUEUE_DEFAULT_MAX_SIZE : Nat := 2 ^ 64 - 1

/-- Modelled from the spec: `IsEmpty` (header line 93; body in the missing
safe_queue_impl.h) reports whether the element sequence is empty. -/
def SafeQueue.IsEmpty {T : Type} (q : SafeQueue T) : Bool :=
  q.m_theQueue.isEmpty

/-- Modelled from the spec: the blocking `Push` (header line 100; body in the
missing safe_queue_impl.h) waits while `|elements| == capacity` and then
appends the element at the tail. In a single-threaded run no other thread can
make room, so a `Push` on a full queue never returns: that case is `none`. -/
def SafeQueue.Push {T : Type} (q : SafeQueue T) (a_elem : T) :
    Option (SafeQueue T) :=
  if q.m_theQueue.length = q.m_maximumSize then
    none
  else
    some { q with m_theQueue := q.m_theQueue ++ [a_elem] }

/-- Modelled from the spec: `TryPush` (header line 109; body in the missing
safe_queue_impl.h) returns `false` leaving the queue unchanged when
`|elements| == capacity`, and otherwise appends at the tail and returns
`true`. The notify step wakes waiting threads and has no functional effect on
the state. -/
def SafeQueue.TryPush {T : Type} (q : SafeQueue T) (a_elem : T) :
    Bool × SafeQueue T :=
  if q.m_theQueue.length = q.m_maximumSize then
    (false, q)
  else
    (true, { q with m_theQueue := q.m_theQueue ++ [a_elem] })

/-- Modelled from the spec: the blocking `Pop` (header line 115; body in the
missing safe_queue_impl.h) waits while the queue is empty and then removes the
head element. In a single-threaded run an empty queue can never be refilled,
so that case is `none`. -/
def SafeQueue.Pop {T : Type} (q : SafeQueue T) : Option (T × SafeQueue T) :=
  match q.m_theQueue with
  | [] => none
  | x :: xs => some (x, { q with m_theQueue := xs })

/-- Modelled from the spec: `TryPop` (header line 123; body in the missing
safe_queue_impl.h) returns `false` when the queue is empty, leaving the
caller's `out_data` variable and the queue unchanged; otherwise it moves the
head element into `out_data`, removes it, and returns `true`. The result
triple is (return value, value of `out_data` after the call, queue state
after the call). -/
def SafeQueue.TryPop {T : Type} (q : SafeQueue T) (out_data : T) :
    Bool × T × SafeQueue T :=
  match q.m_theQueue with
  | [] => (false, out_data, q)
  | x :: xs => (true, x, { q with m_theQueue := xs })

/-- Modelled from the spec: `TimedWaitPop` (header line 136; body in the
missing safe_queue_impl.h) bounds the wait by a timeout. The wait itself is
real-time behaviour outside the functional model; the model evaluates the
call on the queue state at the instant the wait resolves: if the deadline
elapsed with the queue still empty the call returns `false` and leaves `data`
unmodified, and if an element became available before the deadline it removes
the head into `data` and returns `true`, exactly as `Pop` would. The result
triple is (return value, value of `data` after the call, queue state after
the call). -/
def SafeQueue.TimedWaitPop {T : Type} (q : SafeQueue T) (data : T) :
    Bool × T × SafeQueue T :=
  match q.m_theQueue with
  | [] => (false, data, q)
  | x :: xs => (true, x, { q with m_theQueue := xs })

/-- Modelled from the spec: copy assignment (`operator=(const SafeQueue&)`,
header line 81; body in the missing safe_queue_impl.h) locks both instances
and makes this queue mirror the source at one consistent instant: it receives
the source's element sequence and capacity. The destination's previous state
is discarded (the `this != &a_src` identity check only skips the work when
both sides are the same object, where the result is that same state). Copy
construction duplicates the same data into a fresh instance, so it shares
this model. -/
def SafeQueue.copyAssign {T : Type} (dst src : SafeQueue T) : SafeQueue T :=
  { m_theQueue := src.m_theQueue, m_maximumSize := src.m_maximumSize }

/-- Modelled from the spec: move assignment (`operator=(SafeQueue&&)`, header
line 87; body in the missing safe_queue_impl.h) transfers the element
sequence and capacity from the source to the destination and leaves the
source a valid empty queue (a moved-from `std::queue` is empty; the
`std::size_t` capacity is preserved by the move of a scalar). The result pair
is (destination after, source after). Move construction shares this model. -/
def SafeQueue.moveAssign {T : Type} (dst src : SafeQueue T) :
    SafeQueue T × SafeQueue T :=
  ({ m_theQueue := src.m_theQueue, m_maximumSize := src.m_maximumSize },
   { m_theQueue := [], m_maximumSize := src.m_maximumSize })

/-- The size invariant of the data model (spec section 3): the number of
stored elements never exceeds the instance's capacity bound. -/
def SafeQueue.SizeInv {T : Type} (q : SafeQueue T) : Prop :=
  q.m_theQueue.length ≤ q.m_maximumSize

instance {T : Type} (q : SafeQueue T) : Decidable q.SizeInv := by
  unfold SafeQueue.SizeInv; infer_instance

/-- Modelled from the spec: `Push` with an element type whose copy
construction may fail (spec sections 4.1 and 7; body of `Push` in the missing
safe_queue_impl.h). `copyElem` is the element type's copy of the
caller-supplied value, performed inside the append after room exists. The
outer `Option` renders blocking exactly as in `SafeQueue.Push`; a resolved
call returns the queue state after the call together with the propagated
element failure, if any: on failure nothing was appended, on success the
copied element sits at the tail. -/
def SafeQueue.PushExc {T E : Type} (q : SafeQueue T) (copyElem : T → Except E T)
    (a_elem : T) : Option (SafeQueue T × Option E) :=
  if q.m_theQueue.length = q.m_maximumSize then
    none
  else
    match copyElem a_elem with
    | Except.error e => some (q, some e)
    | Except.ok v => some ({ q with m_theQueue := q.m_theQueue ++ [v] }, none)

/-- `Push` as seen by its caller: the header declares
`void Push(const T &a_elem)` (src/cpp/safe_queue.h line 100), taking the
element by const reference, and the queue stores a copy of it. The model
returns, alongside the queue result, the value held by the caller's argument
object after the call, making the frame condition on the argument explicit. -/
def SafeQueue.PushCall {T : Type} (q : SafeQueue T) (a_elem : T) :
    Option (SafeQueue T) × T :=
  (q.Push a_elem, a_elem)

/-- `TryPush` as seen by its caller: the header declares
`bool TryPush(const T &a_elem)` (src/cpp/safe_queue.h line 109); as in
`SafeQueue.PushCall` the second component is the caller's argument object
after the call. -/
def SafeQueue.TryPushCall {T : Type} (q : SafeQueue T) (a_elem : T) :
    (Bool × SafeQueue T) × T :=
  (q.TryPush a_elem, a_elem)

/-- One public mutating operation on a queue instance, used to state
invariants over arbitrary operation sequences. `copyFrom` and `moveFrom`
carry the state of the other instance involved. -/
inductive QOp (T : Type) where
  | push : T → QOp T
  | tryPush : T → QOp T
  | pop : QOp T
  | tryPop : QOp T
  | timedWaitPop : QOp T
  | copyFrom : SafeQueue T → QOp T
  | moveFrom : SafeQueue T → QOp T

/-- Whether the foreign source instance referenced by an operation (if any)
itself satisfies the size invariant. -/
def QOp.srcOk {T : Type} : QOp T → Bool
  | .copyFrom s => decide s.SizeInv
  | .moveFrom s => decide s.SizeInv
  | _ => true

/-- Effect of one public operation on this instance's state. A blocking call
that would suspend (full `push`, empty `pop`) leaves the observed state
unchanged: while suspended the operation has not mutated the queue. `dflt`
is the current value of the caller's `out` variable for the dequeue calls,
which does not influence the queue component. -/
def SafeQueue.applyOp {T : Type} (q : SafeQueue T) (dflt : T) :
    QOp T → SafeQueue T
  | .push v => (q.Push v).getD q
  | .tryPush v => (q.TryPush v).2
  | .pop => ((q.Pop).map Prod.snd).getD q
  | .tryPop => (q.TryPop dflt).2.2
  | .timedWaitPop => (q.TimedWaitPop dflt).2.2
  | .copyFrom src => q.copyAssign src
  | .moveFrom src => (q.moveAssign src).1

/-- Effect of a sequence of public operations, applied left to right. -/
def SafeQueue.applyOps {T : Type} (q : SafeQueue T) (dflt : T) :
    List (QOp T) → SafeQueue T
  | [] => q
  | op :: rest => (q.applyOp dflt op).applyOps dflt rest

/-- Pushing a list of values one by one, left to right, with the blocking
`Push`; `none` as soon as one call blocks forever. -/
def SafeQueue.pushAll {T : Type} (q : SafeQueue T) : List T →
    Option (SafeQueue T)
  | [] => some q
  | v :: rest =>
    match q.Push v with
    | none => none
    | some q2 => q2.pushAll rest

/-- Popping `n` elements with the blocking `Pop`, returning them in pop
order; `none` as soon as one call blocks forever. -/
def SafeQueue.popN {T : Type} (q : SafeQueue T) : Nat →
    Option (List T × SafeQueue T)
  | 0 => some ([], q)
  | n + 1 =>
    match q.Pop with
    | none => none
    | some (x, q2) =>
      match q2.popN n with
      | none => none
      | some (xs, q3) => some (x :: xs, q3)

/-- Modelled from the spec: the lock-acquisition sequence of a dual-instance
copy (spec sections 5 and 9; the body of `operator=` in the missing
safe_queue_impl.h locks both instances): a total order over instances —
here their identities as natural numbers — is imposed and the lower-ordered
lock is always acquired first; a self-copy (`this != &a_src` fails) touches
its single lock at most once. -/
def copyLockSeq (dstId srcId : Nat) : List Nat :=
  if dstId = srcId then [dstId]
  else if dstId ≤ srcId then [dstId, srcId]
  else [srcId, dstId]

/-- Circular wait between two threads each acquiring two locks in sequence:
thread 1 holds the first lock of `s1` and waits for its second lock, thread 2
symmetrically; a deadlock cycle needs each to wait for the lock the other
holds, the held locks being distinct (one mutex cannot be held by both). -/
def twoThreadCircularWait (s1 s2 : List Nat) : Prop :=
  ∃ h1 w1 h2 w2, s1 = [h1, w1] ∧ s2 = [h2, w2] ∧
    h1 ≠ h2 ∧ w1 = h2 ∧ w2 = h1

/-- A world of two queue instances A and B, for stating frame properties of
the dual-instance copy: the pair is (state of A, state of B). -/
def copyAintoB {T : Type} (w : SafeQueue T × SafeQueue T) :
    SafeQueue T × SafeQueue T :=
  (w.1, w.2.copyAssign w.1)

/-- Applying a public operation to instance A of the two-instance world. -/
def mutateA {T : Type} (w : SafeQueue T × SafeQueue T) (dflt : T)
    (op : QOp T) : SafeQueue T × SafeQueue T :=
  (w.1.applyOp dflt op, w.2)

/-- Applying a public operation to instance B of the two-instance world. -/
def mutateB {T : Type} (w : SafeQueue T × SafeQueue T) (dflt : T)
    (op : QOp T) : SafeQueue T × SafeQueue T :=
  (w.1, w.2.applyOp dflt op)

/-- A concrete failing element copy over `Nat` elements: copying the value 5
reports the failure "bad", any other value copies cleanly. Used to exercise
`SafeQueue.PushExc` on a concrete input. -/
def pushCopyFail : Nat → Except String Nat :=
  fun n => if n = 5 then Except.error "bad" else Except.ok n

/-- Claim C3: `TryPush` returns false if and only if the queue holds exactly
`m_maximumSize` elements at the moment of the call, in which case the queue
is unchanged; otherwise it appends the value at the tail (the notify step has
no functional state) and returns true. -/
theorem SafeQueue.C3_tryPush_contract {T : Type} (q : SafeQueue T) (v : T) :
    ((q.TryPush v).1 = false ↔ q.m_theQueue.length = q.m_maximumSize)
    ∧ ((q.TryPush v).1 = false → (q.TryPush v).2 = q)
    ∧ ((q.TryPush v).1 = true →
        (q.TryPush v).2 = { q with m_theQueue := q.m_theQueue ++ [v] }) := by
  unfold SafeQueue.TryPush
  split <;> simp_all

/-- Claim C4: `TryPop` returns false if and only if the queue is empty at the
moment of the call (leaving the caller's `out` variable and the queue
unchanged); otherwise it returns true and removes exactly the head element,
storing it into `out`. -/
theorem SafeQueue.C4_tryPop_contract {T : Type} (q : SafeQueue T) (out : T) :
    ((q.TryPop out).1 = false ↔ q.m_theQueue = [])
    ∧ (q.m_theQueue = [] → q.TryPop out = (false, out, q))
    ∧ (∀ x xs, q.m_theQueue = x :: xs →
        q.TryPop out = (true, x, { q with m_theQueue := xs })) := by
  rcases q with ⟨l, K⟩
  cases l <;> simp_all [SafeQueue.TryPop]

/-- Claim C5: when the deadline of `TimedWaitPop` elapses with the queue
still empty, the call returns false and the caller's `out` variable is not
modified; when an element is available before the deadline, the call removes
the head element into `out` (as `Pop` does) and returns true. The model
evaluates the call on the queue state at the instant the wait resolves. -/
theorem SafeQueue.C5_timedWaitPop_contract {T : Type} (q : SafeQueue T)
    (out : T) :
    (q.m_theQueue = [] → q.TimedWaitPop out = (false, out, q))
    ∧ (∀ x xs, q.m_theQueue = x :: xs →
        q.TimedWaitPop out = (true, x, { q with m_theQueue := xs }))
    ∧ ((q.TimedWaitPop out).1 = false ↔ q.m_theQueue = []) := by
  rcases q with ⟨l, K⟩
  cases l <;> simp_all [SafeQueue.TimedWaitPop]

/-- Claim C6: after a move assignment (or move construction, which shares the
model) the destination's element sequence and capacity equal the source's
pre-move sequence and capacity, and the source is left a valid empty queue:
it reports `IsEmpty` and satisfies the size invariant. -/
theorem SafeQueue.C6_move_semantics {T : Type} (dst src : SafeQueue T) :
    (dst.moveAssign src).1.m_theQueue = src.m_theQueue
    ∧ (dst.moveAssign src).1.m_maximumSize = src.m_maximumSize
    ∧ (dst.moveAssign src).2.IsEmpty = true
    ∧ (dst.moveAssign src).2.SizeInv := by
  simp [SafeQueue.moveAssign, SafeQueue.IsEmpty, SafeQueue.SizeInv]

/-- Claim C7: copying A into B makes B's element sequence mirror A's at the
instant of the copy; afterwards the two instances are independent values —
mutating A leaves the copy in B untouched and mutating B leaves A untouched
(in the two-instance world, each mutation changes only its own component) —
and a self-copy of A into A leaves A as it was. -/
theorem SafeQueue.C7_copy_semantics {T : Type} (a b : SafeQueue T) (dflt : T)
    (op : QOp T) :
    (copyAintoB (a, b)).2.m_theQueue = a.m_theQueue
    ∧ (mutateA (copyAintoB (a, b)) dflt op).2 = (copyAintoB (a, b)).2
    ∧ (mutateB (copyAintoB (a, b)) dflt op).1 = a
    ∧ copyAintoB (a, a) = (a, a) := by
  rcases a with ⟨l, K⟩
  simp [copyAintoB, mutateA, mutateB, SafeQueue.copyAssign]

/-- Claim C10: `Push` and `TryPush` take the element by const reference
(`const T &a_elem`, header lines 100 and 109) and the queue stores a copy:
after either call the caller's argument object still holds its original
value, and the stored copy at the tail equals that value. -/
theorem SafeQueue.C10_push_arg_frame {T : Type} (q : SafeQueue T) (v : T) :
    (q.PushCall v).2 = v
    ∧ (q.TryPushCall v).2 = v
    ∧ (∀ q2, q.Push v = some q2 → q2.m_theQueue = q.m_theQueue ++ [v])
    ∧ ((q.TryPush v).1 = true →
        (q.TryPush v).2.m_theQueue = q.m_theQueue ++ [v]) := by
  refine ⟨rfl, rfl, ?_, ?_⟩ <;>
    · simp only [SafeQueue.Push, SafeQueue.TryPush]
      split <;> simp_all

/-- Claim C9: with the lock-ordering discipline of the dual-instance copy,
the mutual-copy scenario — one thread copies A into B while another copies B
into A — admits no circular wait on the two instances' locks (both threads
request the lower-ordered lock first, so they cannot each hold the lock the
other waits for), and no copy ever re-requests a lock it already holds, which
also covers the self-copy of A into A. -/
theorem copyLockSeq_deadlock_free (a b : Nat) :
    ¬ twoThreadCircularWait (copyLockSeq b a) (copyLockSeq a b)
    ∧ (copyLockSeq a b).Nodup
    ∧ (copyLockSeq a a).Nodup := by
  refine ⟨?_, ?_, ?_⟩
  · rintro ⟨h1, w1, h2, w2, e1, e2, hne, hw1, hw2⟩
    unfold copyLockSeq at e1 e2
    by_cases hba : b = a
    · rw [if_pos hba] at e1
      simp at e1
    · rw [if_neg hba] at e1
      have hab : ¬ a = b := fun h => hba h.symm
      rw [if_neg hab] at e2
      by_cases hle : b ≤ a
      · rw [if_pos hle] at e1
        have : ¬ a ≤ b := by omega
        rw [if_neg this] at e2
        simp only [List.cons.injEq, and_true] at e1 e2
        exact hne (e1.1.symm.trans e2.1)
      · rw [if_neg hle] at e1
        have : a ≤ b := by omega
        rw [if_pos this] at e2
        simp only [List.cons.injEq, and_true] at e1 e2
        exact hne (e1.1.symm.trans e2.1)
  · unfold copyLockSeq
    by_cases hab : a = b
    · simp [hab]
    · by_cases hle : a ≤ b
      · simp [hab, hle]
      · have hba : b ≠ a := by omega
        simp [hab, hle, hba]
  · simp [copyLockSeq]

/-- Pushing a list of values into a queue with enough remaining room appends
them all in order: no blocking occurs and no value is lost or reordered. -/
theorem SafeQueue.pushAll_ok {T : Type} :
    ∀ (vs l : List T) (K : Nat), l.length + vs.length ≤ K →
      SafeQueue.pushAll ⟨l, K⟩ vs = some ⟨l ++ vs, K⟩ := by
  intro vs
  induction vs with
  | nil => intro l K h; simp [SafeQueue.pushAll]
  | cons v rest ih =>
    intro l K h
    have hne : ¬ l.length = K := by
      simp only [List.length_cons] at h; omega
    simp only [SafeQueue.pushAll, SafeQueue.Push, hne, if_false]
    rw [ih (l ++ [v]) K (by simp only [List.length_append, List.length_cons,
      List.length_nil] at h ⊢; omega)]
    simp

/-- Popping the length of a prefix from a queue returns exactly that prefix
in order and leaves the rest of the sequence. -/
theorem SafeQueue.popN_prefix_eq {T : Type} :
    ∀ (l rest : List T) (K : Nat),
      SafeQueue.popN ⟨l ++ rest, K⟩ l.length = some (l, ⟨rest, K⟩) := by
  intro l
  induction l with
  | nil => intro rest K; simp [SafeQueue.popN]
  | cons x xs ih =>
    intro rest K
    simp only [List.cons_append, List.length_cons, SafeQueue.popN,
      SafeQueue.Pop]
    rw [ih rest K]

/-- Claim C1: strict FIFO order — starting from a freshly constructed queue
of sufficient capacity, pushing the values of `vs` one by one and then
popping `vs.length` times returns exactly `vs` in push order (no value
reordered, duplicated or lost) and leaves the queue empty again. -/
theorem SafeQueue.C1_fifo_order {T : Type} (vs : List T) (K : Nat)
    (h : vs.length ≤ K) :
    ∃ qfull, (SafeQueue.new T K).pushAll vs = some qfull
      ∧ qfull.popN vs.length = some (vs, SafeQueue.new T K) := by
  refine ⟨⟨vs, K⟩, ?_, ?_⟩
  · have := SafeQueue.pushAll_ok vs [] K (by simpa using h)
    simpa [SafeQueue.new] using this
  · have := SafeQueue.popN_prefix_eq vs [] K
    simpa [SafeQueue.new] using this

/-- Witness for claim C1 at a concrete input: three values pushed into a
fresh queue of capacity 3 pop back in push order. -/
theorem SafeQueue.C1_fifo_order_witness :
    ([1, 2, 3] : List Nat).length ≤ 3
    ∧ ∃ qfull, (SafeQueue.new Nat 3).pushAll [1, 2, 3] = some qfull
      ∧ qfull.popN ([1, 2, 3] : List Nat).length
          = some ([1, 2, 3], SafeQueue.new Nat 3) :=
  ⟨by decide, SafeQueue.C1_fifo_order [1, 2, 3] 3 (by decide)⟩

/-- One public operation preserves the size invariant, provided the foreign
source instance of a copy or move (if any) satisfies it too. -/
theorem SafeQueue.applyOp_sizeInv {T : Type} (q : SafeQueue T) (dflt : T)
    (op : QOp T) (hq : q.SizeInv) (hop : op.srcOk = true) :
    (q.applyOp dflt op).SizeInv := by
  cases op with
  | push v =>
    simp only [SafeQueue.applyOp, SafeQueue.Push]
    split
    · simpa using hq
    · rename_i hne
      simp only [Option.getD_some]
      simp only [SafeQueue.SizeInv, List.length_append, List.length_cons,
        List.length_nil] at hq ⊢
      omega
  | tryPush v =>
    simp only [SafeQueue.applyOp, SafeQueue.TryPush]
    split
    · simpa using hq
    · rename_i hne
      simp only [SafeQueue.SizeInv, List.length_append, List.length_cons,
        List.length_nil] at hq ⊢
      omega
  | pop =>
    rcases q with ⟨l, K⟩
    cases l with
    | nil => simpa [SafeQueue.applyOp, SafeQueue.Pop] using hq
    | cons x xs =>
      simp only [SafeQueue.SizeInv, List.length_cons] at hq
      simp [SafeQueue.applyOp, SafeQueue.Pop, SafeQueue.SizeInv]
      omega
  | tryPop =>
    rcases q with ⟨l, K⟩
    cases l with
    | nil => simpa [SafeQueue.applyOp, SafeQueue.TryPop] using hq
    | cons x xs =>
      simp only [SafeQueue.SizeInv, List.length_cons] at hq
      simp only [SafeQueue.applyOp, SafeQueue.TryPop, SafeQueue.SizeInv]
      omega
  | timedWaitPop =>
    rcases q with ⟨l, K⟩
    cases l with
    | nil => simpa [SafeQueue.applyOp, SafeQueue.TimedWaitPop] using hq
    | cons x xs =>
      simp only [SafeQueue.SizeInv, List.length_cons] at hq
      simp only [SafeQueue.applyOp, SafeQueue.TimedWaitPop, SafeQueue.SizeInv]
      omega
  | copyFrom s =>
    simp only [QOp.srcOk, decide_eq_true_eq] at hop
    simpa [SafeQueue.applyOp, SafeQueue.copyAssign, SafeQueue.SizeInv]
      using hop
  | moveFrom s =>
    simp only [QOp.srcOk, decide_eq_true_eq] at hop
    simpa [SafeQueue.applyOp, SafeQueue.moveAssign, SafeQueue.SizeInv]
      using hop

/-- A sequence of public operations preserves the size invariant, provided
every foreign source instance referenced by the sequence satisfies it. -/
theorem SafeQueue.applyOps_sizeInv {T : Type} :
    ∀ (ops : List (QOp T)) (q : SafeQueue T) (dflt : T),
      q.SizeInv → (∀ op ∈ ops, op.srcOk = true) →
      (q.applyOps dflt ops).SizeInv := by
  intro ops
  induction ops with
  | nil => intro q dflt hq _; simpa [SafeQueue.applyOps] using hq
  | cons op rest ih =>
    intro q dflt hq hall
    simp only [SafeQueue.applyOps]
    exact ih _ dflt
      (SafeQueue.applyOp_sizeInv q dflt op hq (hall op (by simp)))
      (fun o ho => hall o (by simp [ho]))

/-- Counterexample to claim C2 as stated: a queue constructed with capacity
K = 1, after the single public operation "copy-assign from a source of
capacity 2 holding the two elements 5 and 6" (a source that itself satisfies
the size invariant), stores 2 elements, violating `|elements| ≤ K`. The copy
mirrors the source's capacity together with its contents, so the bound that
persists is the current capacity, not the construction-time one. -/
theorem SafeQueue.C2_counterexample :
    ¬ (((SafeQueue.new Nat 1).applyOps 0
        [QOp.copyFrom ⟨[5, 6], 2⟩]).m_theQueue.length ≤ 1) := by
  decide

/-- Claim C2 (amended): for every queue constructed with capacity K, after
any sequence of public operations (Push, TryPush, Pop, TryPop, TimedWaitPop,
copy, move) whose copy/move sources themselves satisfy the size invariant,
the number of stored elements satisfies 0 ≤ |elements| ≤ the queue's current
capacity — copy and move assignment replace the capacity (initially K) with
the source's. -/
theorem SafeQueue.C2_capacity_invariant {T : Type} (K : Nat) (dflt : T)
    (ops : List (QOp T)) (h : ∀ op ∈ ops, op.srcOk = true) :
    ((SafeQueue.new T K).applyOps dflt ops).SizeInv :=
  SafeQueue.applyOps_sizeInv ops (SafeQueue.new T K) dflt
    (by simp [SafeQueue.new, SafeQueue.SizeInv]) h

/-- Witness for claim C2 at a concrete input: a capacity-2 queue taken
through a push, two try-pushes, a pop, a copy and a move keeps its element
count within its current capacity. -/
theorem SafeQueue.C2_capacity_invariant_witness :
    (∀ op ∈ ([QOp.push 1, QOp.tryPush 2, QOp.tryPush 3, QOp.pop,
        QOp.copyFrom ⟨[9], 1⟩, QOp.moveFrom ⟨[7, 8], 5⟩] : List (QOp Nat)),
      op.srcOk = true)
    ∧ ((SafeQueue.new Nat 2).applyOps 0
        [QOp.push 1, QOp.tryPush 2, QOp.tryPush 3, QOp.pop,
         QOp.copyFrom ⟨[9], 1⟩, QOp.moveFrom ⟨[7, 8], 5⟩]).SizeInv :=
  ⟨by decide, SafeQueue.C2_capacity_invariant 2 0 _ (by decide)⟩

/-- Claim C8: a resolved `Push` fails only by propagating a failure of the
element type's copy of the caller-supplied value; when the copy fails the
queue is left structurally unchanged (nothing partially appended), and when
it succeeds the copied element is appended at the tail. The lock itself has
no functional state; `hroom` states that the call does not suspend. -/
theorem SafeQueue.C8_push_atomic {T E : Type} (q : SafeQueue T)
    (copyElem : T → Except E T) (v : T)
    (hroom : ¬ q.m_theQueue.length = q.m_maximumSize) :
    (∀ e, copyElem v = Except.error e →
        q.PushExc copyElem v = some (q, some e))
    ∧ (∀ w, copyElem v = Except.ok w →
        q.PushExc copyElem v =
          some ({ q with m_theQueue := q.m_theQueue ++ [w] }, none))
    ∧ (∀ q2 e, q.PushExc copyElem v = some (q2, some e) →
        copyElem v = Except.error e ∧ q2 = q) := by
  unfold SafeQueue.PushExc
  rw [if_neg hroom]
  refine ⟨?_, ?_, ?_⟩
  · intro e he; rw [he]
  · intro w hw; rw [hw]
  · intro q2 e hres
    cases hc : copyElem v with
    | error e2 =>
      rw [hc] at hres
      simp only [Option.some.injEq, Prod.mk.injEq, Option.some.injEq] at hres
      obtain ⟨h1, h2⟩ := hres
      subst h1
      subst h2
      exact ⟨rfl, rfl⟩
    | ok w =>
      rw [hc] at hres
      simp at hres
/-- Witness for claim C8 at a concrete input: pushing the value 5 with the
failing element copy `pushCopyFail` into a fresh capacity-2 queue propagates
the failure "bad" and leaves the queue unchanged. -/
theorem SafeQueue.C8_push_atomic_witness :
    ¬ (SafeQueue.new Nat 2).m_theQueue.length
        = (SafeQueue.new Nat 2).m_maximumSize
    ∧ (SafeQueue.new Nat 2).PushExc pushCopyFail 5
        = some (SafeQueue.new Nat 2, some "bad") :=
  ⟨by decide, (SafeQueue.C8_push_atomic (SafeQueue.new Nat 2) pushCopyFail 5
    (by decide)).1 "bad" rfl⟩
